import Mathlib

/-!
Shallow embedding of the storage-and-locking core of `terraform-http-backend.go`.

The program stores, per state name, a content artifact `{name}.tfstate` and a
lock marker `{name}.lock` inside one storage directory, and serves six HTTP
operations over them (list, get, create-or-replace, delete, lock, unlock).

Modelling choices, all taken from the source:
* Go strings and paths are `List Char`; file contents and bodies are `List Nat`.
* The filesystem is an association list from full paths to file kinds, plus
  fault-injection sets naming the paths on which each `os.*` call fails with a
  non-`ENOENT` error (permission denied, I/O error, ...).  `os.Stat`,
  `os.ReadFile` and `os.Remove` also fail on absent paths, as in Go.
* The response writer follows `net/http` semantics: the first `WriteHeader`
  commits the status code and later calls are superfluous no-ops; a `Write`
  before any `WriteHeader` commits status 200; a handler that returns without
  writing anything yields status 200.  `http.Error` is `WriteHeader` followed
  by writing the message and a newline.
* `filepath.Join` is modelled for the case actually used: one directory prefix
  and one file name, neither empty, giving `dir ++ "/" ++ file`.
-/

namespace THB

/-- Go strings, paths and file names, as lists of characters. -/
abbrev Str := List Char

/-- Raw bytes: request bodies, file contents and response bodies. -/
abbrev Bytes := List Nat

/-- Bytes of a text message written into a response body. -/
def bytesOf (s : Str) : Bytes := s.map Char.toNat

/-- Helper for `fileExt`: walks the reversed path from its last character,
accumulating the extension; stops with `[]` at a path separator or at the
front, mirroring the loop of Go `filepath.Ext`. -/
def fileExtAux : Str → Str → Str
  | [], _ => []
  | c :: rest, acc =>
    if c = '/' then []
    else if c = '.' then '.' :: acc
    else fileExtAux rest (c :: acc)

/-- Go `filepath.Ext`: the suffix beginning at the final dot of the last path
element, or empty when there is none. -/
def fileExt (s : Str) : Str := fileExtAux s.reverse []

/-- Go `strings.HasSuffix`. -/
def hasSuffix (s suf : Str) : Bool :=
  decide (suf.length ≤ s.length) && decide (s.drop (s.length - suf.length) = suf)

/-- Go `strings.TrimSuffix`. -/
def trimSuffix (s suf : Str) : Str :=
  if hasSuffix s suf then s.take (s.length - suf.length) else s

/-- Go `filepath.Join` restricted to the use in the source: a non-empty
directory joined with a non-empty file name. -/
def joinPath (dir file : Str) : Str := dir ++ '/' :: file

/-- Source constant `stateFileExt`: Terraform state file extension. -/
def stateFileExt : Str := ".tfstate".toList

/-- Source constant `lockFileExt`: lock file extension. -/
def lockFileExt : Str := ".lock".toList

/-- The `filePath` local of the content handlers: `{dir}/{name}.tfstate`. -/
def statePath (dir name : Str) : Str := joinPath dir (name ++ stateFileExt)

/-- The `lockFile` local of the lock handlers: `{dir}/{name}.lock`. -/
def lockPath (dir name : Str) : Str := joinPath dir (name ++ lockFileExt)

/-- What a path resolves to on disk: a regular file with content, or a
directory (the `info.IsDir()` case the handlers test for). -/
inductive FileKind
  | regular (content : Bytes)
  | directory
deriving DecidableEq

/-- The filesystem: path-to-kind entries plus, per `os` call, the set of paths
on which that call fails with a non-`ENOENT` error. -/
structure FS where
  files : List (Str × FileKind)
  statErr : List Str
  readErr : List Str
  writeErr : List Str
  removeErr : List Str
  createErr : List Str
deriving DecidableEq

/-- Association-list lookup of a path (paths on a real filesystem are unique
keys; all matches agree). -/
def lookupFS : List (Str × FileKind) → Str → Option FileKind
  | [], _ => none
  | (q, k) :: rest, p => if q = p then some k else lookupFS rest p

/-- Remove every entry at a path (at most one on a real filesystem). -/
def removeFS : List (Str × FileKind) → Str → List (Str × FileKind)
  | [], _ => []
  | (q, k) :: rest, p => if q = p then removeFS rest p else (q, k) :: removeFS rest p

/-- Bind a path to a kind, replacing any previous binding. -/
def setFS (l : List (Str × FileKind)) (p : Str) (k : FileKind) :
    List (Str × FileKind) :=
  (p, k) :: removeFS l p

/-- `os.Stat`: `none` is any error (`ENOENT` or an injected fault) — the
handlers only ever test `err != nil`, so the two collapse. -/
def osStat (fs : FS) (p : Str) : Option FileKind :=
  if p ∈ fs.statErr then none else lookupFS fs.files p

/-- How a read fails: `errors.Is(err, os.ErrNotExist)` or anything else. -/
inductive ReadFailure
  | notExist
  | other
deriving DecidableEq

/-- `os.ReadFile`: injected faults and reads of directories fail with a
non-`ENOENT` error; an absent path fails with `ENOENT`. -/
def osReadFile (fs : FS) (p : Str) : Except ReadFailure Bytes :=
  if p ∈ fs.readErr then .error .other
  else
    match lookupFS fs.files p with
    | none => .error .notExist
    | some (.regular d) => .ok d
    | some .directory => .error .other

/-- `os.WriteFile`: creates or fully replaces the file; `none` on an injected
fault (the filesystem is then left unchanged). -/
def osWriteFile (fs : FS) (p : Str) (d : Bytes) : Option FS :=
  if p ∈ fs.writeErr then none
  else some { fs with files := setFS fs.files p (.regular d) }

/-- `os.Remove`: fails on an injected fault and also — as in Go — when the
path does not exist (`ENOENT`); the caller only tests `err != nil`. -/
def osRemove (fs : FS) (p : Str) : Option FS :=
  if p ∈ fs.removeErr then none
  else
    match lookupFS fs.files p with
    | none => none
    | some _ => some { fs with files := removeFS fs.files p }

/-- `os.Create`: creates or truncates the file to empty content; `none` on an
injected fault. -/
def osCreate (fs : FS) (p : Str) : Option FS :=
  if p ∈ fs.createErr then none
  else some { fs with files := setFS fs.files p (.regular []) }

/-- An `http.ResponseWriter` paired with the data written so far: `status` is
`none` until the first `WriteHeader` commits it. -/
structure Response where
  status : Option Nat
  body : Bytes
deriving DecidableEq

/-- A fresh response writer: nothing committed yet. -/
def newResponse : Response := ⟨none, []⟩

/-- `WriteHeader`: the first call commits the code; later calls are
superfluous and ignored, per `net/http`. -/
def Response.writeHeader (r : Response) (code : Nat) : Response :=
  match r.status with
  | some _ => r
  | none => { r with status := some code }

/-- `Write`: commits status 200 when no header was written yet, then appends
the data to the body. -/
def Response.write (r : Response) (d : Bytes) : Response :=
  let r2 := r.writeHeader 200
  { r2 with body := r2.body ++ d }

/-- The status code the client observes: 200 when the handler finished
without writing anything. -/
def Response.code (r : Response) : Nat := r.status.getD 200

/-- `http.Error`: write the header, then the message and a newline. -/
def httpError (r : Response) (msg : Str) (code : Nat) : Response :=
  (r.writeHeader code).write (bytesOf msg ++ [10])

/-- Message of the 500 responses. -/
def internalErrorMsg : Str := "Internal Server Error".toList

/-- Message of the 404 response of `handleGet`. -/
def notFoundMsg : Str := "Not Found".toList

/-- Message of the 423 responses. -/
def lockedMsg : Str := "Locked".toList

/-- Message of the 400 response of `handlePost`. -/
def badRequestMsg : Str := "Bad Request".toList

/-- Message of the 409 response of `handleUnlock`. -/
def conflictMsg : Str := "Conflict".toList

/-- `Storage.isLocked`: true iff `os.Stat` of `{name}.lock` succeeds and the
result is not a directory; any stat error yields false. -/
def isLocked (fs : FS) (dir name : Str) : Bool :=
  match osStat fs (lockPath dir name) with
  | none => false
  | some .directory => false
  | some (.regular _) => true

/-- `Storage.exists`: true iff `os.Stat` of `{name}.tfstate` succeeds and the
result is not a directory; any stat error yields false. -/
def fileExists (fs : FS) (dir name : Str) : Bool :=
  match osStat fs (statePath dir name) with
  | none => false
  | some .directory => false
  | some (.regular _) => true

/-- `Storage.handleGet`: read `{name}.tfstate` and reply 200 with its bytes,
404 when absent, 500 on any other read error. -/
def handleGet (fs : FS) (dir name : Str) : Response :=
  match osReadFile fs (statePath dir name) with
  | .error .notExist => httpError newResponse notFoundMsg 404
  | .error .other => httpError newResponse internalErrorMsg 500
  | .ok data => newResponse.write data

/-- `Storage.handlePost`: reject with 423 when locked; 400 when the body is
unreadable (`body = none`); otherwise write the header 201 first when the
content artifact was absent, then write the file, reporting 500 on a write
error.  Returns the response and the resulting filesystem. -/
def handlePost (fs : FS) (dir name : Str) (body : Option Bytes) :
    Response × FS :=
  if isLocked fs dir name then (httpError newResponse lockedMsg 423, fs)
  else
    match body with
    | none => (httpError newResponse badRequestMsg 400, fs)
    | some data =>
      let r := if fileExists fs dir name then newResponse
               else newResponse.writeHeader 201
      match osWriteFile fs (statePath dir name) data with
      | none => (httpError r internalErrorMsg 500, fs)
      | some fs2 => (r, fs2)

/-- `Storage.handleDelete`: reject with 423 when locked; otherwise remove
`{name}.tfstate`, reporting 500 on any removal error — including, as in the
source, the `ENOENT` error of removing an absent file. -/
def handleDelete (fs : FS) (dir name : Str) : Response × FS :=
  if isLocked fs dir name then (httpError newResponse lockedMsg 423, fs)
  else
    match osRemove fs (statePath dir name) with
    | none => (httpError newResponse internalErrorMsg 500, fs)
    | some fs2 => (newResponse, fs2)

/-- `Storage.handleLock`: reject with 423 when already locked; otherwise
create `{name}.lock`, reporting 500 on a creation error. -/
def handleLock (fs : FS) (dir name : Str) : Response × FS :=
  if isLocked fs dir name then (httpError newResponse lockedMsg 423, fs)
  else
    match osCreate fs (lockPath dir name) with
    | none => (httpError newResponse internalErrorMsg 500, fs)
    | some fs2 => (newResponse, fs2)

/-- `Storage.handleUnlock`: reject with 409 when not locked; otherwise remove
`{name}.lock`, reporting 500 on a removal error. -/
def handleUnlock (fs : FS) (dir name : Str) : Response × FS :=
  if isLocked fs dir name then
    match osRemove fs (lockPath dir name) with
    | none => (httpError newResponse internalErrorMsg 500, fs)
    | some fs2 => (newResponse, fs2)
  else (httpError newResponse conflictMsg 409, fs)

/-- Source struct `State`: one roster entry, a name with its lock flag. -/
structure State where
  name : Str
  locked : Bool
deriving DecidableEq

/-- The sentinel errors of the source (`ErrAlreadyLocked`, ...); the
`fmt.Errorf` wrapping of `processEntries` adds only message text and is
dropped. -/
inductive GoErr
  | alreadyLocked
  | alreadyUnlocked
  | alreadyExists
  | notExists
deriving DecidableEq

/-- Source type `States`: the roster under construction, in scan order. -/
abbrev States := List State

/-- `States.State`: the first entry with the given name, if any. -/
def findState : States → Str → Option State
  | [], _ => none
  | st :: rest, n => if st.name = n then some st else findState rest n

/-- `States.Add`: append a fresh unlocked entry; `ErrAlreadyExists` when the
name is already present. -/
def addState (s : States) (n : Str) : Except GoErr States :=
  match findState s n with
  | some _ => .error .alreadyExists
  | none => .ok (s ++ [⟨n, false⟩])

/-- The in-place update done through the pointer returned by `States.State`:
set the first entry with the given name to locked. -/
def setLocked : States → Str → States
  | [], _ => []
  | st :: rest, n =>
    if st.name = n then { st with locked := true } :: rest
    else st :: setLocked rest n

/-- `States.Lock` followed by `State.Lock`: `ErrNotExists` when the name is
absent, `ErrAlreadyLocked` when its entry is already locked, otherwise mark
it locked. -/
def lockState (s : States) (n : Str) : Except GoErr States :=
  match findState s n with
  | none => .error .notExists
  | some st =>
    if st.locked then .error .alreadyLocked
    else .ok (setLocked s n)

/-- Source `processEntries`: act, in listing order, on the trimmed name of
every directory entry whose extension is `ext`, stopping at the first
error. -/
def processEntries (entries : List Str) (ext : Str)
    (action : Str → States → Except GoErr States) (s : States) :
    Except GoErr States :=
  match entries with
  | [] => .ok s
  | e :: rest =>
    if fileExt e = ext then
      match action (trimSuffix e (fileExt e)) s with
      | .error err => .error err
      | .ok s2 => processEntries rest ext action s2
    else processEntries rest ext action s

/-- The roster computation of `Storage.allStates`: add an entry per
`.tfstate` listing entry, then mark one locked per `.lock` listing entry. -/
def allStatesResult (entries : List Str) : Except GoErr States :=
  match processEntries entries stateFileExt (fun n s => addState s n) [] with
  | .error err => .error err
  | .ok sts => processEntries entries lockFileExt (fun n s => lockState s n) sts

/-- `Storage.allStates` given a successful directory listing: 500 and no
roster when either pass fails, otherwise 200 with the roster (its JSON
serialization, which cannot fail on this data, is elided — the roster itself
is returned). -/
def allStates (entries : List Str) : Response × Option States :=
  match allStatesResult entries with
  | .error _ => (httpError newResponse internalErrorMsg 500, none)
  | .ok sts => (newResponse.writeHeader 200, some sts)

/-- `Storage.allStates` including the directory open/read step: a listing
failure (`none`) is reported as 500 before any roster is built. -/
def allStatesHandler (listing : Option (List Str)) : Response × Option States :=
  match listing with
  | none => (httpError newResponse internalErrorMsg 500, none)
  | some entries => allStates entries

/-! ### Views of the directory scan, used to state the roster claim -/

/-- The sub-listing of directory entries with a given extension, in listing
order — exactly the entries `processEntries` acts on. -/
def entriesWithExt : List Str → Str → List Str
  | [], _ => []
  | e :: rest, ext =>
    if fileExt e = ext then e :: entriesWithExt rest ext
    else entriesWithExt rest ext

/-- The trimmed names `processEntries` passes to its action, in listing
order. -/
def namesWithExt (entries : List Str) (ext : Str) : List Str :=
  (entriesWithExt entries ext).map (fun e => trimSuffix e (fileExt e))

/-- Sequential run of an action over a list of names, stopping at the first
error — the recursion of `processEntries` after filtering by extension. -/
def foldActs (action : Str → States → Except GoErr States) :
    List Str → States → Except GoErr States
  | [], s => .ok s
  | n :: rest, s =>
    match action n s with
    | .error err => .error err
    | .ok s2 => foldActs action rest s2

/-- The roster whose names are `cs`, in order, with lock flags given by
`f`. -/
def mapFlags : List Str → (Str → Bool) → States
  | [], _ => []
  | c :: rest, f => ⟨c, f c⟩ :: mapFlags rest f

/-! ### Concrete fixtures used by the witnesses -/

/-- Storage directory of the witnesses (the source's default path). -/
def wDir : Str := "/var/lib/terraform".toList

/-- State name of the witnesses (the name used by the repository's tests). -/
def wName : Str := "test".toList

/-- Empty storage, no faults. -/
def fsEmpty : FS := ⟨[], [], [], [], [], []⟩

/-- Storage holding only the lock marker of `wName`. -/
def fsLocked : FS := ⟨[(lockPath wDir wName, .regular [])], [], [], [], [], []⟩

/-- Storage holding only the content artifact of `wName`, bytes `[9, 9]`. -/
def fsPresent : FS := ⟨[(statePath wDir wName, .regular [9, 9])], [], [], [], [], []⟩

/-- Empty storage where writing `wName`'s content artifact fails. -/
def fsWriteErrAbsent : FS := ⟨[], [], [], [statePath wDir wName], [], []⟩

/-- Storage holding `wName`'s content where rewriting it fails. -/
def fsWriteErrPresent : FS :=
  ⟨[(statePath wDir wName, .regular [9])], [], [], [statePath wDir wName], [], []⟩

/-- Storage where `wName` is locked and has content, but stat of both its
artifacts fails with a permission-style error. -/
def fsStatErr : FS :=
  ⟨[(lockPath wDir wName, .regular []), (statePath wDir wName, .regular [7])],
   [lockPath wDir wName, statePath wDir wName], [], [], [], []⟩

/-- Storage holding `wName`'s content where reading it fails with a
non-`ENOENT` error. -/
def fsReadErr : FS :=
  ⟨[(statePath wDir wName, .regular [1])], [], [statePath wDir wName], [], [], []⟩

/-- A consistent directory listing: two content artifacts, one of them
locked. -/
def wEntriesOk : List Str :=
  ["a.tfstate".toList, "b.tfstate".toList, "b.lock".toList]

/-- An inconsistent directory listing: a lock marker without a matching
content artifact. -/
def wEntriesBad : List Str := ["c.lock".toList]

/-! ### Helper lemmas about the filesystem and response models -/

theorem lookupFS_removeFS (l : List (Str × FileKind)) (p q : Str) :
    lookupFS (removeFS l p) q = if q = p then none else lookupFS l q := by
  induction l with
  | nil => simp [removeFS, lookupFS]
  | cons kv rest ih =>
    obtain ⟨a, k⟩ := kv
    by_cases hap : a = p <;> by_cases haq : a = q <;>
      by_cases hqp : q = p <;>
      simp_all [removeFS, lookupFS]

theorem lookupFS_setFS (l : List (Str × FileKind)) (p q : Str) (k : FileKind) :
    lookupFS (setFS l p k) q = if q = p then some k else lookupFS l q := by
  by_cases hqp : q = p <;> simp [setFS, lookupFS, lookupFS_removeFS, hqp]
  intro h
  exact absurd h.symm hqp

theorem code_httpError_fresh (msg : Str) (c : Nat) :
    (httpError newResponse msg c).code = c := rfl

theorem code_httpError_after201 (msg : Str) (c : Nat) :
    (httpError (newResponse.writeHeader 201) msg c).code = 201 := rfl

theorem code_newResponse : newResponse.code = 200 := rfl

theorem code_writeHeader (c : Nat) : (newResponse.writeHeader c).code = c := rfl

theorem code_write_fresh (d : Bytes) : (newResponse.write d).code = 200 := rfl

theorem body_write_fresh (d : Bytes) : (newResponse.write d).body = d :=
  List.nil_append d

theorem lockPath_ne_statePath (dir name : Str) :
    lockPath dir name ≠ statePath dir name := by
  intro h
  have hlen := congrArg List.length h
  have h5 : lockFileExt.length = 5 := by decide
  have h8 : stateFileExt.length = 8 := by decide
  simp only [lockPath, statePath, joinPath, List.length_append,
    List.length_cons, h5, h8] at hlen
  omega

theorem isLocked_true_iff (fs : FS) (dir name : Str) :
    isLocked fs dir name = true ↔
      lockPath dir name ∉ fs.statErr ∧
      ∃ c, lookupFS fs.files (lockPath dir name) = some (.regular c) := by
  unfold isLocked osStat
  by_cases hs : lockPath dir name ∈ fs.statErr
  · simp [hs]
  · cases hlk : lookupFS fs.files (lockPath dir name) with
    | none => simp [hs, hlk]
    | some k => cases k <;> simp [hs, hlk]

/-! ### Lemmas about the roster scan -/

theorem processEntries_eq_foldActs (entries : List Str) (ext : Str)
    (action : Str → States → Except GoErr States) (s : States) :
    processEntries entries ext action s =
      foldActs action (namesWithExt entries ext) s := by
  induction entries generalizing s with
  | nil => rfl
  | cons e rest ih =>
    by_cases he : fileExt e = ext
    · simp only [processEntries, entriesWithExt, namesWithExt, he, if_pos,
        List.map_cons, foldActs]
      cases action (trimSuffix e (fileExt e)) s <;> simp [ih, namesWithExt]
    · simp only [processEntries, entriesWithExt, namesWithExt, he, if_neg,
        not_false_iff, ih]

theorem mapFlags_nil (f : Str → Bool) : mapFlags [] f = [] := rfl

theorem mapFlags_cons (c : Str) (cs : List Str) (f : Str → Bool) :
    mapFlags (c :: cs) f = ⟨c, f c⟩ :: mapFlags cs f := rfl

theorem findState_mapFlags (cs : List Str) (f : Str → Bool) (n : Str) :
    findState (mapFlags cs f) n = if n ∈ cs then some ⟨n, f n⟩ else none := by
  induction cs with
  | nil => simp [mapFlags, findState]
  | cons c rest ih =>
    by_cases hc : c = n
    · subst hc; simp [mapFlags, findState]
    · simp [mapFlags, findState, hc, ih, Ne.symm hc]

theorem findState_append (a b : States) (n : Str) :
    findState (a ++ b) n =
      match findState a n with
      | some st => some st
      | none => findState b n := by
  induction a with
  | nil => simp [findState]
  | cons st rest ih =>
    by_cases h : st.name = n <;> simp [findState, h, ih]

theorem addAll_ok (ns : List Str) (s : States) (hnd : ns.Nodup)
    (habs : ∀ n ∈ ns, findState s n = none) :
    foldActs (fun n s => addState s n) ns s =
      .ok (s ++ mapFlags ns (fun _ => false)) := by
  induction ns generalizing s with
  | nil => simp [foldActs, mapFlags]
  | cons n rest ih =>
    have hn : findState s n = none := habs n (by simp)
    have hone : ∀ m ∈ rest, findState (s ++ [⟨n, false⟩]) m = none := by
      intro m hm
      have hnm : n ≠ m := fun h => (List.nodup_cons.mp hnd).1 (h ▸ hm)
      simp [findState_append, habs m (List.mem_cons_of_mem n hm),
        findState, hnm]
    have hstep : addState s n = .ok (s ++ [⟨n, false⟩]) := by
      simp [addState, hn]
    simp only [foldActs, hstep]
    refine (ih (s ++ [⟨n, false⟩]) (List.nodup_cons.mp hnd).2 hone).trans ?_
    simp [mapFlags_cons]

theorem mapFlags_congr (cs : List Str) (f g : Str → Bool)
    (h : ∀ c ∈ cs, f c = g c) : mapFlags cs f = mapFlags cs g := by
  induction cs with
  | nil => rfl
  | cons c rest ih =>
    rw [mapFlags_cons, mapFlags_cons, h c (by simp),
      ih (fun x hx => h x (List.mem_cons_of_mem c hx))]

theorem setLocked_mapFlags (cs : List Str) (f : Str → Bool) (l : Str)
    (hnd : cs.Nodup) :
    setLocked (mapFlags cs f) l =
      mapFlags cs (fun c => if c = l then true else f c) := by
  induction cs with
  | nil => rfl
  | cons c rest ih =>
    rcases List.nodup_cons.mp hnd with ⟨hcr, hrest⟩
    by_cases hc : c = l
    · subst hc
      simp only [mapFlags_cons, setLocked, if_pos]
      refine congrArg₂ _ (by simp) ?_
      exact mapFlags_congr rest _ _ (fun x hx => by
        have hxc : ¬x = c := fun h => hcr (h ▸ hx)
        simp [hxc])
    · simp only [mapFlags_cons, setLocked, hc, if_neg, not_false_iff,
        ih hrest]

theorem lockAll_ok (ls : List Str) (f : Str → Bool) (cs : List Str)
    (hcs : cs.Nodup) (hls : ls.Nodup)
    (hsub : ∀ l ∈ ls, l ∈ cs) (hf : ∀ l ∈ ls, f l = false) :
    foldActs (fun n s => lockState s n) ls (mapFlags cs f) =
      .ok (mapFlags cs (fun c => if c ∈ ls then true else f c)) := by
  induction ls generalizing f with
  | nil =>
    simp only [foldActs]
    exact congrArg Except.ok (mapFlags_congr cs f _ (by intro c hc; simp))
  | cons l rest ih =>
    rcases List.nodup_cons.mp hls with ⟨hlr, hrest⟩
    have hlcs : l ∈ cs := hsub l (by simp)
    have hfl : f l = false := hf l (by simp)
    have hstep : lockState (mapFlags cs f) l =
        .ok (mapFlags cs (fun c => if c = l then true else f c)) := by
      rw [lockState, findState_mapFlags, if_pos hlcs]
      simp only [hfl, Bool.false_eq_true, if_false]
      rw [setLocked_mapFlags cs f l hcs]
    simp only [foldActs, hstep]
    refine (ih (fun c => if c = l then true else f c) hrest
      (fun x hx => hsub x (List.mem_cons_of_mem l hx))
      (fun x hx => by
        have hxl : ¬x = l := fun h => hlr (h ▸ hx)
        simp [hxl, hf x (List.mem_cons_of_mem l hx)])).trans ?_
    refine congrArg Except.ok (mapFlags_congr cs _ _ (fun c hc => ?_))
    by_cases hcr : c ∈ rest <;> by_cases hcl : c = l <;>
      simp [hcr, hcl, List.mem_cons]

theorem lockAll_err (ls : List Str) (f : Str → Bool) (cs : List Str)
    (hcs : cs.Nodup) (hbad : ∃ l ∈ ls, l ∉ cs) :
    ∃ e, foldActs (fun n s => lockState s n) ls (mapFlags cs f) = .error e := by
  induction ls generalizing f with
  | nil => rcases hbad with ⟨l, hl, -⟩; cases hl
  | cons l rest ih =>
    by_cases hlcs : l ∈ cs
    · cases hfl : f l with
      | true =>
        refine ⟨.alreadyLocked, ?_⟩
        simp only [foldActs, lockState, findState_mapFlags, if_pos hlcs, hfl,
          if_true]
      | false =>
        have hstep : lockState (mapFlags cs f) l =
            .ok (mapFlags cs (fun c => if c = l then true else f c)) := by
          rw [lockState, findState_mapFlags, if_pos hlcs]
          simp only [hfl, Bool.false_eq_true, if_false]
          rw [setLocked_mapFlags cs f l hcs]
        rcases hbad with ⟨x, hx, hxcs⟩
        have hxrest : x ∈ rest := by
          rcases List.mem_cons.mp hx with rfl | h
          · exact absurd hlcs hxcs
          · exact h
        simp only [foldActs, hstep]
        exact ih _ ⟨x, hxrest, hxcs⟩
    · refine ⟨.notExists, ?_⟩
      simp only [foldActs, lockState, findState_mapFlags, if_neg hlcs]

theorem entriesWithExt_sublist (entries : List Str) (ext : Str) :
    List.Sublist (entriesWithExt entries ext) entries := by
  induction entries with
  | nil => simp [entriesWithExt]
  | cons e rest ih =>
    by_cases he : fileExt e = ext
    · rw [entriesWithExt, if_pos he]
      exact ih.cons₂ e
    · rw [entriesWithExt, if_neg he]
      exact ih.cons e

theorem mem_entriesWithExt {entries : List Str} {ext e : Str}
    (h : e ∈ entriesWithExt entries ext) : fileExt e = ext := by
  induction entries with
  | nil => cases h
  | cons e2 rest ih =>
    by_cases he : fileExt e2 = ext
    · rw [entriesWithExt, if_pos he] at h
      rcases List.mem_cons.mp h with rfl | h2
      · exact he
      · exact ih h2
    · rw [entriesWithExt, if_neg he] at h
      exact ih h

theorem fileExtAux_decomp (r : Str) : ∀ (acc out : Str),
    fileExtAux r acc = out → out ≠ [] →
    ∃ pre rest, r = pre ++ '.' :: rest ∧
      out = '.' :: (pre.reverse ++ acc) := by
  induction r with
  | nil =>
    intro acc out h hne
    rw [fileExtAux] at h
    exact absurd h.symm hne
  | cons c rest ih =>
    intro acc out h hne
    by_cases hsl : c = '/'
    · rw [fileExtAux, if_pos hsl] at h
      exact absurd h.symm hne
    · by_cases hd : c = '.'
      · rw [fileExtAux, if_neg hsl, if_pos hd] at h
        exact ⟨[], rest, by simp [hd], by simp [← h, hd]⟩
      · rw [fileExtAux, if_neg hsl, if_neg hd] at h
        obtain ⟨pre, rest2, hr, hout⟩ := ih (c :: acc) out h hne
        refine ⟨c :: pre, rest2, by rw [List.cons_append, ← hr], ?_⟩
        rw [hout]
        simp [List.append_assoc]

theorem fileExt_decomp {e out : Str} (h : fileExt e = out) (hne : out ≠ []) :
    ∃ a, e = a ++ out := by
  obtain ⟨pre, rest, hr, hout⟩ := fileExtAux_decomp e.reverse [] out h hne
  refine ⟨rest.reverse, ?_⟩
  have he : e = (pre ++ '.' :: rest).reverse := by
    rw [← hr, List.reverse_reverse]
  rw [he, hout]
  simp [List.reverse_append, List.append_assoc]

theorem trimSuffix_append (a suf : Str) : trimSuffix (a ++ suf) suf = a := by
  have hlen : (a ++ suf).length - suf.length = a.length := by
    simp [List.length_append]
  have hsuf : hasSuffix (a ++ suf) suf = true := by
    simp [hasSuffix, hlen, List.drop_left, List.length_append]
  simp [trimSuffix, hsuf, hlen, List.take_left]

theorem namesWithExt_nodup (entries : List Str) (ext : Str)
    (hne : ext ≠ []) (hN : entries.Nodup) :
    (namesWithExt entries ext).Nodup := by
  refine List.Nodup.map_on ?_ (hN.sublist (entriesWithExt_sublist entries ext))
  intro x hx y hy hxy
  have hxe := mem_entriesWithExt hx
  have hye := mem_entriesWithExt hy
  obtain ⟨ax, hax⟩ := fileExt_decomp hxe hne
  obtain ⟨ay, hay⟩ := fileExt_decomp hye hne
  rw [hxe, hye, hax, hay, trimSuffix_append, trimSuffix_append] at hxy
  rw [hax, hay, hxy]

theorem names_mapFlags (cs : List Str) (f : Str → Bool) :
    (mapFlags cs f).map State.name = cs := by
  induction cs with
  | nil => rfl
  | cons c rest ih => simp [mapFlags_cons, ih]

theorem mem_mapFlags {cs : List Str} {f : Str → Bool} {st : State}
    (h : st ∈ mapFlags cs f) : st.name ∈ cs ∧ st.locked = f st.name := by
  induction cs with
  | nil => cases h
  | cons c rest ih =>
    rw [mapFlags_cons] at h
    rcases List.mem_cons.mp h with rfl | h2
    · simp
    · rcases ih h2 with ⟨h1, h2⟩
      exact ⟨List.mem_cons_of_mem c h1, h2⟩

/-! ### The claims -/

/-- C1: while a lock marker is present for a name, both create-or-replace
(POST) and delete (DELETE) answer 423 Locked and return the filesystem
untouched — in particular, the name's content artifact is neither written nor
removed. -/
theorem post_delete_locked_rejected (fs : FS) (dir name : Str)
    (body : Option Bytes) (h : isLocked fs dir name = true) :
    (handlePost fs dir name body).1.code = 423 ∧
    (handlePost fs dir name body).2 = fs ∧
    (handleDelete fs dir name).1.code = 423 ∧
    (handleDelete fs dir name).2 = fs := by
  simp [handlePost, handleDelete, h, code_httpError_fresh]

theorem post_delete_locked_rejected_witness :
    (handlePost fsLocked wDir wName (some [1])).1.code = 423 ∧
    (handlePost fsLocked wDir wName (some [1])).2 = fsLocked ∧
    (handleDelete fsLocked wDir wName).1.code = 423 ∧
    (handleDelete fsLocked wDir wName).2 = fsLocked :=
  post_delete_locked_rejected fsLocked wDir wName (some [1]) (by decide)

/-- C2: evaluation at the failing input — a DELETE of an unlocked name whose
content artifact is absent answers 500, not 200: `handleDelete` reports every
`os.Remove` error alike and does not special-case the `ENOENT` of an
already-absent file, so the idempotent-delete behaviour the spec requires
does not hold in the source. -/
theorem delete_absent_returns_500 :
    (handleDelete fsEmpty wDir wName).1.code = 500 ∧
    (handleDelete fsEmpty wDir wName).2 = fsEmpty := by decide

/-- C3: evaluation at the failing input — when the content write fails, the
500 status only reaches the client for a previously present artifact; for an
absent one the handler has already committed the 201 header before calling
`os.WriteFile`, and the later `http.Error` is a superfluous `WriteHeader`,
so the observed status is 201, contradicting the claimed unconditional
500. -/
theorem post_write_error_status :
    (handlePost fsWriteErrAbsent wDir wName (some [1, 2])).1.code = 201 ∧
    (handlePost fsWriteErrPresent wDir wName (some [1, 2])).1.code = 500 := by
  decide

/-- C4: a LOCK on a name without a lock marker creates the marker (an empty
regular file) and answers 200 — regardless of whether the content artifact
exists, which is left untouched — provided marker creation itself does not
fail; a LOCK on a name whose marker already exists answers 423 and changes
nothing. -/
theorem lock_semantics (fs : FS) (dir name : Str) :
    (isLocked fs dir name = false →
      lockPath dir name ∉ fs.createErr →
      (handleLock fs dir name).1.code = 200 ∧
      lookupFS (handleLock fs dir name).2.files (lockPath dir name) =
        some (.regular []) ∧
      lookupFS (handleLock fs dir name).2.files (statePath dir name) =
        lookupFS fs.files (statePath dir name)) ∧
    (isLocked fs dir name = true →
      (handleLock fs dir name).1.code = 423 ∧
      (handleLock fs dir name).2 = fs) := by
  have hne : statePath dir name ≠ lockPath dir name :=
    fun h => lockPath_ne_statePath dir name h.symm
  constructor
  · intro hNL hC
    simp [handleLock, hNL, osCreate, hC, lookupFS_setFS, hne, code_newResponse]
  · intro hL
    simp [handleLock, hL, code_httpError_fresh]

theorem lock_semantics_witness :
    ((handleLock fsEmpty wDir wName).1.code = 200 ∧
      lookupFS (handleLock fsEmpty wDir wName).2.files (lockPath wDir wName) =
        some (.regular []) ∧
      lookupFS (handleLock fsEmpty wDir wName).2.files (statePath wDir wName) =
        lookupFS fsEmpty.files (statePath wDir wName)) ∧
    ((handleLock fsLocked wDir wName).1.code = 423 ∧
      (handleLock fsLocked wDir wName).2 = fsLocked) :=
  ⟨(lock_semantics fsEmpty wDir wName).1 (by decide) (by decide),
   (lock_semantics fsLocked wDir wName).2 (by decide)⟩

/-- C5: an UNLOCK on a name whose lock marker exists removes the marker and
answers 200, leaving the content artifact untouched, provided marker removal
itself does not fail; an UNLOCK on a name without a marker answers 409 and
changes nothing. -/
theorem unlock_semantics (fs : FS) (dir name : Str) :
    (isLocked fs dir name = true →
      lockPath dir name ∉ fs.removeErr →
      (handleUnlock fs dir name).1.code = 200 ∧
      lookupFS (handleUnlock fs dir name).2.files (lockPath dir name) = none ∧
      lookupFS (handleUnlock fs dir name).2.files (statePath dir name) =
        lookupFS fs.files (statePath dir name)) ∧
    (isLocked fs dir name = false →
      (handleUnlock fs dir name).1.code = 409 ∧
      (handleUnlock fs dir name).2 = fs) := by
  have hne : statePath dir name ≠ lockPath dir name :=
    fun h => lockPath_ne_statePath dir name h.symm
  constructor
  · intro hL hR
    obtain ⟨-, c, hlk⟩ := (isLocked_true_iff fs dir name).mp hL
    simp [handleUnlock, hL, osRemove, hR, hlk, lookupFS_removeFS, hne,
      code_newResponse]
  · intro hNL
    simp [handleUnlock, hNL, code_httpError_fresh]

theorem unlock_semantics_witness :
    ((handleUnlock fsLocked wDir wName).1.code = 200 ∧
      lookupFS (handleUnlock fsLocked wDir wName).2.files (lockPath wDir wName) =
        none ∧
      lookupFS (handleUnlock fsLocked wDir wName).2.files (statePath wDir wName) =
        lookupFS fsLocked.files (statePath wDir wName)) ∧
    ((handleUnlock fsEmpty wDir wName).1.code = 409 ∧
      (handleUnlock fsEmpty wDir wName).2 = fsEmpty) :=
  ⟨(unlock_semantics fsLocked wDir wName).1 (by decide) (by decide),
   (unlock_semantics fsEmpty wDir wName).2 (by decide)⟩

/-- C6: on a directory listing (whose entries, being file names, are
distinct), the list operation builds a roster with exactly one entry per
`.tfstate` content artifact, in scan order, each marked locked exactly when a
matching `.lock` marker artifact is listed; and when some lock marker has no
matching content artifact, the operation answers 500 with no roster at
all. -/
theorem allStates_roster (entries : List Str) (hN : entries.Nodup) :
    ((∀ l ∈ namesWithExt entries lockFileExt,
        l ∈ namesWithExt entries stateFileExt) →
      ∃ roster : States,
        allStates entries = (newResponse.writeHeader 200, some roster) ∧
        roster.map State.name = namesWithExt entries stateFileExt ∧
        ∀ st ∈ roster,
          (st.locked = true ↔ st.name ∈ namesWithExt entries lockFileExt)) ∧
    ((∃ l ∈ namesWithExt entries lockFileExt,
        l ∉ namesWithExt entries stateFileExt) →
      (allStates entries).1.code = 500 ∧ (allStates entries).2 = none) := by
  have hcs : (namesWithExt entries stateFileExt).Nodup :=
    namesWithExt_nodup entries stateFileExt (by decide) hN
  have hls : (namesWithExt entries lockFileExt).Nodup :=
    namesWithExt_nodup entries lockFileExt (by decide) hN
  have hadd : processEntries entries stateFileExt (fun n s => addState s n) [] =
      .ok (mapFlags (namesWithExt entries stateFileExt) (fun _ => false)) := by
    rw [processEntries_eq_foldActs,
      addAll_ok (namesWithExt entries stateFileExt) [] hcs (fun n _ => rfl)]
    simp
  constructor
  · intro hsub
    have hlock := lockAll_ok (namesWithExt entries lockFileExt) (fun _ => false)
      (namesWithExt entries stateFileExt) hcs hls hsub (fun _ _ => rfl)
    refine ⟨mapFlags (namesWithExt entries stateFileExt)
      (fun c => if c ∈ namesWithExt entries lockFileExt then true
                else (fun _ => false) c), ?_, ?_, ?_⟩
    · simp only [allStates, allStatesResult, hadd,
        processEntries_eq_foldActs, hlock]
    · exact names_mapFlags _ _
    · intro st hst
      rcases mem_mapFlags hst with ⟨-, hflag⟩
      rw [hflag]
      by_cases hcl : st.name ∈ namesWithExt entries lockFileExt <;>
        simp [hcl]
  · intro hbad
    obtain ⟨err, herr⟩ := lockAll_err (namesWithExt entries lockFileExt)
      (fun _ => false) (namesWithExt entries stateFileExt) hcs hbad
    simp [allStates, allStatesResult, hadd,
      processEntries_eq_foldActs, herr, code_httpError_fresh]

theorem allStates_roster_witness :
    (∃ roster : States,
      allStates wEntriesOk = (newResponse.writeHeader 200, some roster) ∧
      roster.map State.name = namesWithExt wEntriesOk stateFileExt ∧
      ∀ st ∈ roster,
        (st.locked = true ↔ st.name ∈ namesWithExt wEntriesOk lockFileExt)) ∧
    ((allStates wEntriesBad).1.code = 500 ∧
      (allStates wEntriesBad).2 = none) :=
  ⟨(allStates_roster wEntriesOk (by decide)).1 (by decide),
   (allStates_roster wEntriesBad (by decide)).2
     ⟨"c".toList, by decide, by decide⟩⟩

/-- C7: a successful create-or-replace (POST) on an unlocked name answers
201 when the content artifact was absent before the write and 200 when it was
present, and afterwards the artifact holds exactly the request body,
replacing any prior content. -/
theorem post_created_replaced (fs : FS) (dir name : Str) (data : Bytes)
    (hNL : isLocked fs dir name = false)
    (hW : statePath dir name ∉ fs.writeErr) :
    (fileExists fs dir name = false →
      (handlePost fs dir name (some data)).1.code = 201) ∧
    (fileExists fs dir name = true →
      (handlePost fs dir name (some data)).1.code = 200) ∧
    lookupFS (handlePost fs dir name (some data)).2.files (statePath dir name) =
      some (.regular data) := by
  cases hE : fileExists fs dir name <;>
    simp [handlePost, hNL, hE, osWriteFile, hW, lookupFS_setFS,
      code_newResponse, code_writeHeader]

theorem post_created_replaced_witness :
    ((handlePost fsEmpty wDir wName (some [3, 4])).1.code = 201 ∧
      lookupFS (handlePost fsEmpty wDir wName (some [3, 4])).2.files
        (statePath wDir wName) = some (.regular [3, 4])) ∧
    ((handlePost fsPresent wDir wName (some [3, 4])).1.code = 200 ∧
      lookupFS (handlePost fsPresent wDir wName (some [3, 4])).2.files
        (statePath wDir wName) = some (.regular [3, 4])) :=
  have ha := post_created_replaced fsEmpty wDir wName [3, 4]
    (by decide) (by decide)
  have hp := post_created_replaced fsPresent wDir wName [3, 4]
    (by decide) (by decide)
  ⟨⟨ha.1 (by decide), ha.2.2⟩, ⟨hp.2.1 (by decide), hp.2.2⟩⟩

/-- C8: on an unlocked name, a successful POST of a body followed by a GET
returns exactly the posted bytes, byte-identical, for arbitrary content. -/
theorem post_get_roundtrip (fs : FS) (dir name : Str) (data : Bytes)
    (hNL : isLocked fs dir name = false)
    (hW : statePath dir name ∉ fs.writeErr)
    (hR : statePath dir name ∉ fs.readErr) :
    (handleGet (handlePost fs dir name (some data)).2 dir name).code = 200 ∧
    (handleGet (handlePost fs dir name (some data)).2 dir name).body = data := by
  cases hE : fileExists fs dir name <;>
    simp [handlePost, handleGet, hNL, hE, osWriteFile, hW, osReadFile, hR,
      lookupFS_setFS, code_write_fresh, body_write_fresh]

theorem post_get_roundtrip_witness :
    (handleGet (handlePost fsEmpty wDir wName (some [0, 255, 10])).2
      wDir wName).code = 200 ∧
    (handleGet (handlePost fsEmpty wDir wName (some [0, 255, 10])).2
      wDir wName).body = [0, 255, 10] :=
  post_get_roundtrip fsEmpty wDir wName [0, 255, 10]
    (by decide) (by decide) (by decide)

/-- C9: a GET answers 200 with the full stored bytes when the content
artifact is a present regular file, 404 when it is absent, and 500 when the
read fails for any other reason (an injected I/O fault, or the path being a
directory). -/
theorem get_semantics (fs : FS) (dir name : Str) :
    (∀ d : Bytes, statePath dir name ∉ fs.readErr →
      lookupFS fs.files (statePath dir name) = some (.regular d) →
      (handleGet fs dir name).code = 200 ∧ (handleGet fs dir name).body = d) ∧
    (statePath dir name ∉ fs.readErr →
      lookupFS fs.files (statePath dir name) = none →
      (handleGet fs dir name).code = 404) ∧
    ((statePath dir name ∈ fs.readErr ∨
        lookupFS fs.files (statePath dir name) = some .directory) →
      (handleGet fs dir name).code = 500) := by
  refine ⟨?_, ?_, ?_⟩
  · intro d hR hlk
    simp [handleGet, osReadFile, hR, hlk, code_write_fresh, body_write_fresh]
  · intro hR hlk
    simp [handleGet, osReadFile, hR, hlk, code_httpError_fresh]
  · rintro (hR | hlk)
    · simp [handleGet, osReadFile, hR, code_httpError_fresh]
    · by_cases hR : statePath dir name ∈ fs.readErr <;>
        simp [handleGet, osReadFile, hR, hlk, code_httpError_fresh]

theorem get_semantics_witness :
    ((handleGet fsPresent wDir wName).code = 200 ∧
      (handleGet fsPresent wDir wName).body = [9, 9]) ∧
    (handleGet fsEmpty wDir wName).code = 404 ∧
    (handleGet fsReadErr wDir wName).code = 500 :=
  ⟨(get_semantics fsPresent wDir wName).1 [9, 9] (by decide) (by decide),
   (get_semantics fsEmpty wDir wName).2.1 (by decide) (by decide),
   (get_semantics fsReadErr wDir wName).2.2 (Or.inl (by decide))⟩

/-- C10: when `os.Stat` fails on a name's artifacts for any reason, the lock
check and the existence check both report `false` — so a permission or I/O
error on the lock marker makes the name look unlocked, and POST and DELETE
proceed to modify the content artifact instead of answering 423 or 500
(fail-open lock check). -/
theorem stat_error_fail_open (fs : FS) (dir name : Str) (data : Bytes)
    (hS : lockPath dir name ∈ fs.statErr) :
    isLocked fs dir name = false ∧
    (statePath dir name ∈ fs.statErr → fileExists fs dir name = false) ∧
    (statePath dir name ∉ fs.writeErr →
      (handlePost fs dir name (some data)).1.code ≠ 423 ∧
      lookupFS (handlePost fs dir name (some data)).2.files
        (statePath dir name) = some (.regular data)) ∧
    (∀ k, statePath dir name ∉ fs.removeErr →
      lookupFS fs.files (statePath dir name) = some k →
      (handleDelete fs dir name).1.code = 200 ∧
      lookupFS (handleDelete fs dir name).2.files (statePath dir name) =
        none) := by
  have hNL : isLocked fs dir name = false := by
    simp [isLocked, osStat, hS]
  refine ⟨hNL, ?_, ?_, ?_⟩
  · intro hS2
    simp [fileExists, osStat, hS2]
  · intro hW
    cases hE : fileExists fs dir name <;>
      simp [handlePost, hNL, hE, osWriteFile, hW, lookupFS_setFS,
        code_newResponse, code_writeHeader]
  · intro k hRem hlk
    simp [handleDelete, hNL, osRemove, hRem, hlk, lookupFS_removeFS,
      code_newResponse]

theorem stat_error_fail_open_witness :
    isLocked fsStatErr wDir wName = false ∧
    fileExists fsStatErr wDir wName = false ∧
    ((handlePost fsStatErr wDir wName (some [5])).1.code ≠ 423 ∧
      lookupFS (handlePost fsStatErr wDir wName (some [5])).2.files
        (statePath wDir wName) = some (.regular [5])) ∧
    ((handleDelete fsStatErr wDir wName).1.code = 200 ∧
      lookupFS (handleDelete fsStatErr wDir wName).2.files
        (statePath wDir wName) = none) :=
  have h := stat_error_fail_open fsStatErr wDir wName [5] (by decide)
  ⟨h.1, h.2.1 (by decide), h.2.2.1 (by decide),
   h.2.2.2 (.regular [7]) (by decide) (by decide)⟩

end THB
